import Mathlib

/-!
# Verification of the `synchronize-images` synchronizer

A shallow embedding of `src/main.rs` of the `synchronize-images` repository.

Modelling conventions:
* Calendar timestamps (`chrono::DateTime<Utc>`) and GPS-week times (`f64`) are
  modelled as rationals (`ℚ`); all the verified properties are order-theoretic
  or exercise exact linear arithmetic, never rounding.
* Fallible Rust functions returning `Result<_, Error>` become `Except Error _`;
  `failure::Error` (which can wrap the executable's own `Error` as well as
  `chrono::ParseError` and `std::num::ParseIntError`) becomes `FailureError`.
* Line-oriented file reading is modelled at its natural boundary: a file is its
  list of lines (`List String`).
* Three functions of the source are `unimplemented!()` stubs
  (`Record::new`, `<Synchronizer as Iterator>::next`, `Position::datetime`);
  they are modelled from the specification, as flagged in their doc comments.
-/

/-- An event marker (`struct EventMarker`): links a timestamp and an event
marker number.  `datetime: DateTime<Utc>` is modelled as `ℚ`, `number: i32`
as `Int`. -/
structure EventMarker where
  datetime : ℚ
  number : Int
deriving DecidableEq

/-- A position and orientation, with time (`struct Position`); all `f64`
fields are modelled as `ℚ`. -/
structure Position where
  time : ℚ
  longitude : ℚ
  latitude : ℚ
  height : ℚ
  roll : ℚ
  pitch : ℚ
  yaw : ℚ
deriving DecidableEq

/-- The output record (`struct Record`). -/
structure Record where
  file_name : String
  datetime : ℚ
  longitude : ℚ
  latitude : ℚ
  height : ℚ
  roll : ℚ
  pitch : ℚ
  yaw : ℚ
deriving DecidableEq

/-- The errors that can be produced by this executable (`enum Error`). -/
inductive Error where
  | CountMismatch (event_markers : List EventMarker) (images : List String)
  | EmptyTrajectory
  | EventMarkerSlip (before : EventMarker) (after : EventMarker)
  | GpsWeekTimeSlip (before : Position) (after : Position)
  | InvalidEventMarker (s : String)
  | NoEventMarkers
deriving DecidableEq

/-- The dynamic error type `failure::Error` as used by this executable: it can
wrap the executable's own `Error`, a `chrono::ParseError` (from the
`NaiveDate::parse_from_str` / `NaiveTime::parse_from_str` calls), or a
`std::num::ParseIntError` (from `str::parse::<i32>`). -/
inductive FailureError where
  | app (e : Error)
  | chronoParse
  | parseInt
deriving DecidableEq

/-- A zipped iterator over the event markers and the images
(`struct Synchronizer`): the two owned iterators are modelled as the lists of
their remaining elements. -/
structure Synchronizer where
  event_markers : List EventMarker
  images : List String
deriving DecidableEq

/-- A trajectory (`struct Trajectory`): the iterator `before` over all
positions and the iterator `after` over the positions with the first one
skipped, modelled as the lists of their remaining elements. -/
structure Trajectory where
  before : List Position
  after : List Position
deriving DecidableEq

/-- The first adjacent out-of-order pair of a list, as found by the Rust
pattern `for (before, after) in xs.iter().zip(xs.iter().skip(1))` with an
early `return Err` on the first pair satisfying `bad`. -/
def firstSlip {α : Type} (bad : α → α → Bool) : List α → Option (α × α)
  | x :: y :: rest => if bad x y then some (x, y) else firstSlip bad (y :: rest)
  | _ => none

/-- `Synchronizer::new`: fails with `CountMismatch` if the counts differ,
then with `EventMarkerSlip` on the first adjacent out-of-order event-marker
pair, and otherwise zips the two inputs. -/
def Synchronizer.new (event_markers : List EventMarker) (images : List String) :
    Except Error Synchronizer :=
  if event_markers.length ≠ images.length then
    .error (.CountMismatch event_markers images)
  else
    match firstSlip (fun b a => decide (b.datetime > a.datetime)) event_markers with
    | some (b, a) => .error (.EventMarkerSlip b a)
    | none => .ok ⟨event_markers, images⟩

/-- Modelled from the spec: `<Synchronizer as Iterator>::next` is an
`unimplemented!()` stub in the source; per the source doc comment ("A zipped
iterator over the event markers and the images") and spec §4.5, it yields the
next (event marker, image name) pair, or `none` when either iterator is
exhausted. -/
def Synchronizer.next (s : Synchronizer) :
    Option ((EventMarker × String) × Synchronizer) :=
  match s.event_markers, s.images with
  | e :: es, i :: is => some ((e, i), ⟨es, is⟩)
  | _, _ => none

/-- `Trajectory::new`: fails with `GpsWeekTimeSlip` on the first adjacent
pair of positions with `before.time > after.time`; otherwise keeps the
position list and the same list with the first element skipped. -/
def Trajectory.new (positions : List Position) : Except Error Trajectory :=
  match firstSlip (fun b a => decide (b.time > a.time)) positions with
  | some (b, a) => .error (.GpsWeekTimeSlip b a)
  | none => .ok ⟨positions, positions.drop 1⟩

/-- `<Trajectory as Iterator>::next`: yields the next adjacent pair
`(before, after)` of positions, or `none` when either iterator is
exhausted. -/
def Trajectory.next (t : Trajectory) :
    Option ((Position × Position) × Trajectory) :=
  match t.before, t.after with
  | b :: bs, a :: as_ => some ((b, a), ⟨bs, as_⟩)
  | _, _ => none

/-- Modelled from the spec: `Position::datetime` (converting a position's GPS
week time to a real datetime, anchored to an event marker) is an
`unimplemented!()` stub in the source; per spec §4.4 the resolution applies
one constant clock offset — computed once from a reference event marker — to
every position's continuous-clock time.  The offset is taken as a parameter
since the spec leaves the anchor-selection rule open. -/
def Position.datetime (offset : ℚ) (p : Position) : ℚ :=
  p.time + offset

/-- Modelled from the spec: the PoseInterpolator of spec §4.6 (the
interpolation inside `Record::new`, which is an `unimplemented!()` stub in the
source).  Component-wise linear interpolation
`value = before.value + (after.value - before.value) * (target - before.time) / (after.time - before.time)`,
with the degenerate case `before.time == after.time` returning `before`'s
values unchanged to avoid division by zero. -/
def PoseInterpolator (before after : Position) (target : ℚ) : Position :=
  if before.time = after.time then
    { before with time := target }
  else
    { time := target
      longitude := before.longitude +
        (after.longitude - before.longitude) * (target - before.time) /
          (after.time - before.time)
      latitude := before.latitude +
        (after.latitude - before.latitude) * (target - before.time) /
          (after.time - before.time)
      height := before.height +
        (after.height - before.height) * (target - before.time) /
          (after.time - before.time)
      roll := before.roll +
        (after.roll - before.roll) * (target - before.time) /
          (after.time - before.time)
      pitch := before.pitch +
        (after.pitch - before.pitch) * (target - before.time) /
          (after.time - before.time)
      yaw := before.yaw +
        (after.yaw - before.yaw) * (target - before.time) /
          (after.time - before.time) }

/-- Modelled from the spec: `Record::new` is an `unimplemented!()` stub in
the source; per spec §3 and §4.6 the output record carries the image file
name, the trigger's calendar datetime, and the pose linearly interpolated at
the trigger instant (the trigger's datetime converted back to the
trajectory's clock by the constant offset). -/
def Record.new (offset : ℚ) (event_marker : EventMarker) (file_name : String)
    (before after : Position) : Record :=
  let p := PoseInterpolator before after (event_marker.datetime - offset)
  { file_name := file_name
    datetime := event_marker.datetime
    longitude := p.longitude
    latitude := p.latitude
    height := p.height
    roll := p.roll
    pitch := p.pitch
    yaw := p.yaw }

/-- The sweep loop of `fn main` (lines 50–82): walks the trigger stream and
the adjacent-bracket stream in lockstep.  The first component is the `records`
vector; the second component records whether the final `else` branch — the
`unreachable!()` assertion — was entered (entering it would abort the Rust
program). -/
def sweep (offset : ℚ) :
    List (EventMarker × String) → List (Position × Position) →
    List Record × Bool
  | [], _ => ([], false)
  | _ :: _, [] => ([], false)
  | (event_marker, file_name) :: triggers, (before, after) :: brackets =>
    if before.datetime offset ≤ event_marker.datetime ∧
        after.datetime offset ≥ event_marker.datetime then
      (Record.new offset event_marker file_name before after ::
        (sweep offset triggers ((before, after) :: brackets)).1,
       (sweep offset triggers ((before, after) :: brackets)).2)
    else if before.datetime offset > event_marker.datetime then
      sweep offset triggers ((before, after) :: brackets)
    else if after.datetime offset < event_marker.datetime then
      sweep offset ((event_marker, file_name) :: triggers) brackets
    else
      ([], true)
termination_by ts bs => ts.length + bs.length
decreasing_by
  all_goals simp [List.length_cons]

/-- The body of `fn main` after file reading (lines 44–84): construct the
synchronizer and the trajectory, pull the first trigger (else
`NoEventMarkers`) and the first bracket (else `EmptyTrajectory`), then run
the sweep loop over the remaining streams. -/
def mainRun (offset : ℚ) (event_markers : List EventMarker)
    (images : List String) (positions : List Position) :
    Except Error (List Record × Bool) :=
  match Synchronizer.new event_markers images with
  | .error e => .error e
  | .ok synchronizer =>
    match Trajectory.new positions with
    | .error e => .error e
    | .ok trajectory =>
      match Synchronizer.next synchronizer with
      | none => .error .NoEventMarkers
      | some ((event_marker, file_name), synchronizer') =>
        match Trajectory.next trajectory with
        | none => .error .EmptyTrajectory
        | some ((before, after), trajectory') =>
          .ok (sweep offset
            ((event_marker, file_name) ::
              synchronizer'.event_markers.zip synchronizer'.images)
            ((before, after) :: trajectory'.before.zip trajectory'.after))

/-- The first adjacent trajectory bracket whose closed datetime interval
contains `t` (the bracket the sweep interpolates in). -/
def findBracket (offset : ℚ) (brackets : List (Position × Position)) (t : ℚ) :
    Option (Position × Position) :=
  brackets.find? fun ba =>
    decide (ba.1.datetime offset ≤ t) && decide (ba.2.datetime offset ≥ t)

/-- `t` falls within the closed interval of some adjacent trajectory-sample
pair (spec: "trajectory coverage"). -/
def covered (offset : ℚ) (positions : List Position) (t : ℚ) : Prop :=
  ∃ ba ∈ positions.zip (positions.drop 1),
    ba.1.datetime offset ≤ t ∧ t ≤ ba.2.datetime offset

instance (offset : ℚ) (positions : List Position) (t : ℚ) :
    Decidable (covered offset positions t) := by
  unfold covered
  infer_instance

instance {ε α : Type} [DecidableEq ε] [DecidableEq α] :
    DecidableEq (Except ε α) := fun a b =>
  match a, b with
  | .ok x, .ok y =>
    if h : x = y then isTrue (by rw [h])
    else isFalse (by intro hc; cases hc; exact h rfl)
  | .error e, .error f =>
    if h : e = f then isTrue (by rw [h])
    else isFalse (by intro hc; cases hc; exact h rfl)
  | .ok _, .error _ => isFalse (by intro hc; cases hc)
  | .error _, .ok _ => isFalse (by intro hc; cases hc)

/-- The six interpolated pose fields of a position (everything but `time`),
for stating field-wise interpolation properties. -/
def poseOf (p : Position) : ℚ × ℚ × ℚ × ℚ × ℚ × ℚ :=
  (p.longitude, p.latitude, p.height, p.roll, p.pitch, p.yaw)

/-! ## The event-marker line parser

`EventMarker::from_str` matches the line against the cached regex
`^(?P<date>\d{4}/\d{2}/\d{2})\s+(?P<time>\d{2}:\d{2}:\d{2}.\d{4})\s+(?P<number>\d+)$`
(note the unescaped `.` before the fractional seconds: it matches any
character) and, when it matches, parses the three captures with
`NaiveDate::parse_from_str(_, "%Y/%m/%d")`,
`NaiveTime::parse_from_str(_, "%H:%M:%S.%f")` and `str::parse::<i32>`.
The matcher below is deterministic because digits and whitespace are
disjoint, so the regex engine's greedy matching never backtracks into a
different split. -/

/-- A regex `\s` whitespace character (the ASCII ones; the input lines carry
no Unicode whitespace in any property below). -/
def isSpaceChar (c : Char) : Bool :=
  c = ' ' || c = '\t' || c = '\n' || c = '\r' || c = '\x0b' || c = '\x0c'

/-- Take exactly `n` ASCII digits off the front of the character list,
returning them and the remainder (`\d{n}`). -/
def takeDigits : Nat → List Char → Option (List Char × List Char)
  | 0, cs => some ([], cs)
  | n + 1, c :: cs =>
    if c.isDigit then (takeDigits n cs).map fun p => (c :: p.1, p.2)
    else none
  | _ + 1, [] => none

/-- Take one expected literal character off the front of the list. -/
def takeChar (c : Char) : List Char → Option (List Char)
  | x :: xs => if x = c then some xs else none
  | [] => none

/-- Take one or more whitespace characters off the front of the list
(`\s+`, greedy). -/
def takeSpaces1 : List Char → Option (List Char)
  | c :: cs => if isSpaceChar c then some (cs.dropWhile isSpaceChar) else none
  | [] => none

/-- Take one or more ASCII digits off the front of the list (`\d+`,
greedy). -/
def takeDigits1 (cs : List Char) : Option (List Char × List Char) :=
  match cs.span Char.isDigit with
  | (ds, rest) => if ds.isEmpty then none else some (ds, rest)

/-- The `\d{4}/\d{2}/\d{2}` date part of the regex: on success returns the
matched characters and the remainder. -/
def matchDate (cs : List Char) : Option (List Char × List Char) := do
  let (y, cs) ← takeDigits 4 cs
  let cs ← takeChar '/' cs
  let (mo, cs) ← takeDigits 2 cs
  let cs ← takeChar '/' cs
  let (d, cs) ← takeDigits 2 cs
  some (y ++ '/' :: mo ++ '/' :: d, cs)

/-- The `\d{2}:\d{2}:\d{2}.\d{4}` time part of the regex (the unescaped `.`
matches any character): on success returns the matched characters and the
remainder. -/
def matchTime (cs : List Char) : Option (List Char × List Char) := do
  let (h, cs) ← takeDigits 2 cs
  let cs ← takeChar ':' cs
  let (mi, cs) ← takeDigits 2 cs
  let cs ← takeChar ':' cs
  let (se, cs) ← takeDigits 2 cs
  let dot ← cs.head?
  let (fr, cs) ← takeDigits 4 cs.tail
  some (h ++ ':' :: mi ++ ':' :: se ++ dot :: fr, cs)

/-- The whole-line regex match: on success returns the `date`, `time` and
`number` captures. -/
def matchLine (s : String) : Option (String × String × String) := do
  let (date, cs) ← matchDate s.toList
  let cs ← takeSpaces1 cs
  let (time, cs) ← matchTime cs
  let cs ← takeSpaces1 cs
  let (num, cs) ← takeDigits1 cs
  if cs.isEmpty then
    some (String.mk date, String.mk time, String.mk num)
  else
    none

/-- The numeric value of a list of ASCII digits. -/
def digitsToNat (cs : List Char) : Nat :=
  cs.foldl (fun acc c => 10 * acc + (c.toNat - '0'.toNat)) 0

/-- Whether `y` is a leap year in the proleptic Gregorian calendar used by
`chrono`. -/
def isLeapYear (y : Nat) : Bool :=
  (y % 4 = 0 && y % 100 ≠ 0) || y % 400 = 0

/-- Days in month `m` of year `y`. -/
def daysInMonth (y m : Nat) : Nat :=
  if m = 2 then if isLeapYear y then 29 else 28
  else if m = 4 ∨ m = 6 ∨ m = 9 ∨ m = 11 then 30
  else 31

/-- Days in the years before year `y` (counting from year 1). -/
def daysBeforeYear (y : Nat) : Nat :=
  365 * (y - 1) + (y - 1) / 4 + (y - 1) / 400 - (y - 1) / 100

/-- Days in the months of year `y` before month `m`. -/
def daysBeforeMonth (y m : Nat) : Nat :=
  (List.range' 1 (m - 1)).foldl (fun acc k => acc + daysInMonth y k) 0

/-- `NaiveDate::parse_from_str(s, "%Y/%m/%d")` applied to a `date` capture:
it re-reads the three numeric fields and then validates them as a real
proleptic-Gregorian date (`chrono` rejects month 0 or > 12, day 0 or past the
end of the month).  On success, the day count used to build the timestamp. -/
def parse_date (s : String) : Option Nat := do
  let cs := s.toList
  let (y, cs) ← takeDigits 4 cs
  let cs ← takeChar '/' cs
  let (mo, cs) ← takeDigits 2 cs
  let cs ← takeChar '/' cs
  let (d, cs) ← takeDigits 2 cs
  if ¬cs.isEmpty then none
  else
    let yn := digitsToNat y
    let mn := digitsToNat mo
    let dn := digitsToNat d
    if 1 ≤ mn ∧ mn ≤ 12 ∧ 1 ≤ dn ∧ dn ≤ daysInMonth yn mn then
      some (daysBeforeYear yn + daysBeforeMonth yn mn + (dn - 1))
    else
      none

/-- `NaiveTime::parse_from_str(s, "%H:%M:%S.%f")` applied to a `time`
capture: the format expects a literal `'.'` where the regex allowed any
character, and validates hour ≤ 23, minute ≤ 59 and second ≤ 60 (`chrono`
accepts a leap second).  `%f` parses the digits as a raw nanosecond count.
On success, the time of day in seconds, as a rational. -/
def parse_time (s : String) : Option ℚ := do
  let cs := s.toList
  let (h, cs) ← takeDigits 2 cs
  let cs ← takeChar ':' cs
  let (mi, cs) ← takeDigits 2 cs
  let cs ← takeChar ':' cs
  let (se, cs) ← takeDigits 2 cs
  let cs ← takeChar '.' cs
  let (fr, cs) ← takeDigits 4 cs
  if ¬cs.isEmpty then none
  else
    let hn := digitsToNat h
    let mn := digitsToNat mi
    let sn := digitsToNat se
    if hn ≤ 23 ∧ mn ≤ 59 ∧ sn ≤ 60 then
      some ((hn * 3600 + mn * 60 + sn : ℚ) + (digitsToNat fr : ℚ) / 1000000000)
    else
      none

/-- `str::parse::<i32>` applied to a `number` capture (a non-empty digit
string): fails when the value overflows `i32`. -/
def parse_i32 (s : String) : Option Int :=
  let v := digitsToNat s.toList
  if v ≤ 2147483647 then some (v : Int) else none

/-- `<EventMarker as FromStr>::from_str`: a line that does not match the
regex fails with the executable's own `Error::InvalidEventMarker` carrying
the raw line; a matching line whose date, time or number capture fails to
parse propagates the underlying `chrono::ParseError` or `ParseIntError`
through the `?` operator. -/
def EventMarker.from_str (s : String) : Except FailureError EventMarker :=
  match matchLine s with
  | none => .error (.app (.InvalidEventMarker s))
  | some (d, t, n) =>
    match parse_date d with
    | none => .error .chronoParse
    | some days =>
      match parse_time t with
      | none => .error .chronoParse
      | some secs =>
        match parse_i32 n with
        | none => .error .parseInt
        | some number => .ok ⟨(days : ℚ) * 86400 + secs, number⟩

/-- `fn read_synchro` on the lines of the file: empty lines and lines
starting with `#` are skipped; every other line is parsed, the first parse
error aborting the collection. -/
def read_synchro (lines : List String) : Except FailureError (List EventMarker) :=
  (lines.filter fun line => !(line.isEmpty || line.startsWith "#")).mapM
    EventMarker.from_str

/-- `fn read_image_names` on the lines of the file: every line is kept as an
image name, one file name per line. -/
def read_image_names (lines : List String) : List String :=
  lines

/-! ## Helper lemmas -/

theorem firstSlip_eq_none_iff {α : Type} (bad : α → α → Bool) :
    ∀ l : List α,
      firstSlip bad l = none ↔ List.Chain' (fun x y => bad x y = false) l
  | [] => by simp [firstSlip]
  | [x] => by simp [firstSlip]
  | x :: y :: rest => by
    rw [firstSlip, List.chain'_cons]
    by_cases h : bad x y = true
    · simp [h]
    · rw [if_neg h, firstSlip_eq_none_iff bad (y :: rest)]
      simp only [Bool.not_eq_true] at h
      simp [h]

theorem firstSlip_eq_some_first {α : Type} (bad : α → α → Bool) :
    ∀ (l : List α) (i : Nat) (hi : i + 1 < l.length),
      bad (l.get ⟨i, by omega⟩) (l.get ⟨i + 1, hi⟩) = true →
      (∀ k (hk : k < i),
        bad (l.get ⟨k, by omega⟩) (l.get ⟨k + 1, by omega⟩) = false) →
      firstSlip bad l = some (l.get ⟨i, by omega⟩, l.get ⟨i + 1, hi⟩)
  | [], i, hi => by simp at hi
  | [x], i, hi => by simp at hi
  | x :: y :: rest, 0, hi => by
    intro hbad _
    simp only [List.get] at hbad ⊢
    rw [firstSlip, if_pos hbad]
  | x :: y :: rest, j + 1, hi => by
    intro hbad hmin
    have h0 : bad x y = false := by
      have := hmin 0 (by omega)
      simpa using this
    rw [firstSlip, if_neg (by simp [h0])]
    have hi' : j + 1 < (y :: rest).length := by
      simpa using Nat.lt_of_succ_lt_succ hi
    have := firstSlip_eq_some_first bad (y :: rest) j hi'
      (by simpa using hbad)
      (fun k hk => by
        have := hmin (k + 1) (by omega)
        simpa using this)
    simpa using this

theorem length_filterMap_eq_countP {α β : Type} (f : α → Option β) :
    ∀ l : List α, (l.filterMap f).length = l.countP fun x => (f x).isSome
  | [] => by simp
  | x :: xs => by
    rw [List.filterMap_cons, List.countP_cons]
    cases h : f x with
    | none => simp [h, length_filterMap_eq_countP f xs]
    | some b => simp [h, length_filterMap_eq_countP f xs]

theorem mem_zip_left {α β : Type} :
    ∀ {l₁ : List α} {l₂ : List β} {x : α},
      l₁.length = l₂.length → x ∈ l₁ → ∃ y, (x, y) ∈ l₁.zip l₂
  | [], _, x, _, hx => absurd hx (List.not_mem_nil x)
  | a :: as_, [], x, hlen, _ => by simp at hlen
  | a :: as_, b :: bs, x, hlen, hx => by
    rcases List.mem_cons.1 hx with rfl | hx
    · exact ⟨b, by simp⟩
    · obtain ⟨y, hy⟩ := mem_zip_left (by simpa using hlen) hx
      exact ⟨y, by simp [hy]⟩

theorem chain'_zip_left {α β : Type} {r : α → α → Prop} :
    ∀ (l₁ : List α) (l₂ : List β),
      List.Chain' r l₁ → List.Chain' (fun p q => r p.1 q.1) (l₁.zip l₂)
  | [], _, _ => by simp
  | _ :: _, [], _ => by simp
  | [a], b :: bs, _ => by simp
  | a :: a' :: as_, b :: b' :: bs, h => by
    rw [List.chain'_cons] at h
    rw [List.zip_cons_cons, List.zip_cons_cons, List.chain'_cons]
    exact ⟨h.1, by simpa using chain'_zip_left (a' :: as_) (b' :: bs) h.2⟩
  | a :: a' :: as_, [b], h => by simp

theorem findBracket_cons_of_not (offset : ℚ) (b a : Position)
    (bs : List (Position × Position)) (t : ℚ)
    (h : ¬(b.datetime offset ≤ t ∧ t ≤ a.datetime offset)) :
    findBracket offset ((b, a) :: bs) t = findBracket offset bs t := by
  unfold findBracket
  rw [List.find?_cons_of_neg]
  simpa using h

theorem findBracket_eq_none_of_head_late (offset : ℚ) (b a : Position)
    (bs : List (Position × Position)) (t : ℚ)
    (hmono : List.Pairwise (fun x y => x.1.time ≤ y.1.time) ((b, a) :: bs))
    (h : b.datetime offset > t) :
    findBracket offset ((b, a) :: bs) t = none := by
  unfold findBracket
  rw [List.find?_eq_none]
  intro x hx
  have hbx : b.time ≤ x.1.time := by
    rcases List.mem_cons.1 hx with rfl | hx
    · exact le_refl b.time
    · exact (List.pairwise_cons.1 hmono).1 x hx
  simp only [Bool.and_eq_true, decide_eq_true_eq, not_and]
  intro hle
  exfalso
  unfold Position.datetime at h hle
  linarith

theorem sweep_snd_false (offset : ℚ) :
    ∀ (n : Nat) (ts : List (EventMarker × String))
      (bs : List (Position × Position)),
      ts.length + bs.length ≤ n → (sweep offset ts bs).2 = false := by
  intro n
  induction n with
  | zero =>
    intro ts bs h
    match ts, bs with
    | [], _ => simp [sweep]
    | _ :: _, [] => simp [sweep]
    | _ :: _, _ :: _ => simp [List.length_cons] at h
  | succ n ih =>
    intro ts bs h
    match ts, bs with
    | [], _ => simp [sweep]
    | _ :: _, [] => simp [sweep]
    | (em, fn) :: ts', (b, a) :: bs' =>
      rw [sweep]
      split_ifs with h1 h2 h3
      · exact ih ts' ((b, a) :: bs')
          (by simp only [List.length_cons] at h ⊢; omega)
      · exact ih ts' ((b, a) :: bs')
          (by simp only [List.length_cons] at h ⊢; omega)
      · exact ih ((em, fn) :: ts') bs'
          (by simp only [List.length_cons] at h ⊢; omega)
      · exact absurd ⟨not_lt.1 h2, not_lt.1 h3⟩ h1

theorem sweep_eq_filterMap (offset : ℚ) :
    ∀ (n : Nat) (ts : List (EventMarker × String))
      (bs : List (Position × Position)),
      ts.length + bs.length ≤ n →
      List.Pairwise (fun p q => p.1.datetime ≤ q.1.datetime) ts →
      List.Pairwise (fun x y => x.1.time ≤ y.1.time) bs →
      sweep offset ts bs =
        (ts.filterMap fun p =>
          (findBracket offset bs p.1.datetime).map fun ba =>
            Record.new offset p.1 p.2 ba.1 ba.2, false) := by
  intro n
  induction n with
  | zero =>
    intro ts bs h _ _
    match ts, bs with
    | [], _ => simp [sweep]
    | _ :: _, [] => simp [List.length_cons] at h
    | _ :: _, _ :: _ => simp [List.length_cons] at h
  | succ n ih =>
    intro ts bs hn hts hbs
    match ts, bs with
    | [], _ => simp [sweep]
    | (em, fn) :: ts', [] =>
      rw [sweep]
      have : ∀ p ∈ (em, fn) :: ts',
          (findBracket offset ([] : List (Position × Position))
            p.1.datetime).map (fun ba =>
              Record.new offset p.1 p.2 ba.1 ba.2) = none := by
        intro p _
        simp [findBracket]
      rw [List.filterMap_eq_nil_iff.2 this]
    | (em, fn) :: ts', (b, a) :: bs' =>
      rw [sweep]
      split_ifs with h1 h2 h3
      · have hfb : findBracket offset ((b, a) :: bs') em.datetime =
            some (b, a) := by
          unfold findBracket
          exact List.find?_cons_of_pos _ (by simpa using h1)
        rw [ih ts' ((b, a) :: bs')
          (by simp only [List.length_cons] at hn ⊢; omega)
          (List.pairwise_cons.1 hts).2 hbs]
        simp [List.filterMap_cons, hfb]
      · have hfb : findBracket offset ((b, a) :: bs') em.datetime = none :=
          findBracket_eq_none_of_head_late offset b a bs' em.datetime hbs h2
        rw [ih ts' ((b, a) :: bs')
          (by simp only [List.length_cons] at hn ⊢; omega)
          (List.pairwise_cons.1 hts).2 hbs]
        simp [List.filterMap_cons, hfb]
      · have hcong :
            ((em, fn) :: ts').filterMap (fun p =>
              (findBracket offset ((b, a) :: bs') p.1.datetime).map fun ba =>
                Record.new offset p.1 p.2 ba.1 ba.2) =
            ((em, fn) :: ts').filterMap (fun p =>
              (findBracket offset bs' p.1.datetime).map fun ba =>
                Record.new offset p.1 p.2 ba.1 ba.2) := by
          refine List.filterMap_congr fun p hp => ?_
          have hlate : a.datetime offset < p.1.datetime := by
            rcases List.mem_cons.1 hp with rfl | hp
            · exact h3
            · exact lt_of_lt_of_le h3 ((List.pairwise_cons.1 hts).1 p hp)
          rw [findBracket_cons_of_not offset b a bs' p.1.datetime
            (by intro hc; exact absurd hc.2 (not_le.2 hlate))]
        rw [ih ((em, fn) :: ts') bs'
          (by simp only [List.length_cons] at hn ⊢; omega)
          hts (List.pairwise_cons.1 hbs).2]
        rw [hcong]
      · exact absurd ⟨not_lt.1 h2, not_lt.1 h3⟩ h1

theorem covered_iff_findBracket_isSome (offset : ℚ) (ps : List Position)
    (t : ℚ) :
    covered offset ps t ↔
      (findBracket offset (ps.zip (ps.drop 1)) t).isSome := by
  unfold covered findBracket
  rw [List.find?_isSome]
  simp [Bool.and_eq_true, decide_eq_true_eq, ge_iff_le]

theorem mainRun_eq_sweep (offset : ℚ) (ems : List EventMarker)
    (imgs : List String) (ps : List Position)
    (hne : ems ≠ []) (hlen : ems.length = imgs.length)
    (hmono : List.Chain' (fun b a => b.datetime ≤ a.datetime) ems)
    (hp2 : 2 ≤ ps.length)
    (hpmono : List.Chain' (fun b a => b.time ≤ a.time) ps) :
    mainRun offset ems imgs ps =
      .ok (sweep offset (ems.zip imgs) (ps.zip (ps.drop 1))) := by
  match ems, imgs with
  | [], _ => exact absurd rfl hne
  | e :: es, [] => simp at hlen
  | e :: es, i :: is =>
    match ps, hp2 with
    | p0 :: p1 :: rest, _ =>
      have hsync : Synchronizer.new (e :: es) (i :: is) =
          .ok ⟨e :: es, i :: is⟩ := by
        unfold Synchronizer.new
        rw [if_neg (by simp [hlen])]
        have hnone : firstSlip
            (fun b a => decide (b.datetime > a.datetime)) (e :: es) = none := by
          rw [firstSlip_eq_none_iff]
          exact hmono.imp fun a b hab => decide_eq_false (not_lt.2 hab)
        rw [hnone]
      have htraj : Trajectory.new (p0 :: p1 :: rest) =
          .ok ⟨p0 :: p1 :: rest, (p0 :: p1 :: rest).drop 1⟩ := by
        unfold Trajectory.new
        have hnone : firstSlip
            (fun b a => decide (b.time > a.time)) (p0 :: p1 :: rest) = none := by
          rw [firstSlip_eq_none_iff]
          exact hpmono.imp fun a b hab => decide_eq_false (not_lt.2 hab)
        rw [hnone]
      unfold mainRun
      rw [hsync, htraj]
      simp only [List.drop_succ_cons, List.drop_zero]
      rfl

theorem pairwise_of_chain'_trans {α : Type} (r : α → α → Prop)
    (htrans : ∀ a b c, r a b → r b c → r a c) :
    ∀ {l : List α}, List.Chain' r l → List.Pairwise r l
  | [], _ => List.Pairwise.nil
  | [x], _ => by simp
  | x :: y :: rest, h => by
    rw [List.chain'_cons] at h
    have tail := pairwise_of_chain'_trans r htrans h.2
    refine List.pairwise_cons.2 ⟨?_, tail⟩
    intro z hz
    rcases List.mem_cons.1 hz with rfl | hz
    · exact h.1
    · exact htrans _ _ _ h.1 ((List.pairwise_cons.1 tail).1 z hz)

theorem synchronizer_new_ok (event_markers : List EventMarker)
    (images : List String) (hlen : event_markers.length = images.length)
    (hmono : List.Chain' (fun b a => b.datetime ≤ a.datetime) event_markers) :
    Synchronizer.new event_markers images = .ok ⟨event_markers, images⟩ := by
  unfold Synchronizer.new
  rw [if_neg (by simp [hlen])]
  rw [(firstSlip_eq_none_iff _ _).2
    (hmono.imp fun a b hab => decide_eq_false (not_lt.2 hab))]

theorem trajectory_new_ok (positions : List Position)
    (hpmono : List.Chain' (fun b a => b.time ≤ a.time) positions) :
    Trajectory.new positions = .ok ⟨positions, positions.drop 1⟩ := by
  unfold Trajectory.new
  rw [(firstSlip_eq_none_iff _ _).2
    (hpmono.imp fun a b hab => decide_eq_false (not_lt.2 hab))]

/-! ## The claims -/

/-- C3: for bracketing positions with `before.time ≤ after.time`,
interpolating at `before.time` returns exactly `before`'s six pose fields;
interpolating at `after.time` returns exactly `after`'s fields when the
bracket is non-degenerate; and in the degenerate case
`before.time = after.time` (where the target coincides with both endpoints)
`before`'s values are returned unchanged, with no division by zero. -/
theorem interpolation_boundary_exactness (before after : Position)
    (_h : before.time ≤ after.time) :
    poseOf (PoseInterpolator before after before.time) = poseOf before ∧
    (before.time < after.time →
      poseOf (PoseInterpolator before after after.time) = poseOf after) ∧
    (before.time = after.time →
      poseOf (PoseInterpolator before after after.time) = poseOf before) := by
  refine ⟨?_, ?_, ?_⟩
  · unfold PoseInterpolator poseOf
    split_ifs with heq
    · rfl
    · simp [sub_self]
  · intro hlt
    have hne : after.time - before.time ≠ 0 := sub_ne_zero.2 (ne_of_gt hlt)
    unfold PoseInterpolator poseOf
    rw [if_neg (ne_of_lt hlt)]
    simp only [Prod.mk.injEq]
    refine ⟨?_, ?_, ?_, ?_, ?_, ?_⟩ <;>
      · rw [mul_div_assoc, div_self hne, mul_one]
        ring
  · intro heq
    unfold PoseInterpolator poseOf
    rw [if_pos heq]

theorem interpolation_boundary_exactness_witness :
    poseOf (PoseInterpolator ⟨5, 100, 200, 300, 1, 2, 3⟩
      ⟨25, 140, 160, 340, 5, 6, 7⟩ (5 : ℚ)) =
        poseOf ⟨5, 100, 200, 300, 1, 2, 3⟩ ∧
    ((5 : ℚ) < 25 →
      poseOf (PoseInterpolator ⟨5, 100, 200, 300, 1, 2, 3⟩
        ⟨25, 140, 160, 340, 5, 6, 7⟩ (25 : ℚ)) =
          poseOf ⟨25, 140, 160, 340, 5, 6, 7⟩) ∧
    ((5 : ℚ) = 25 →
      poseOf (PoseInterpolator ⟨5, 100, 200, 300, 1, 2, 3⟩
        ⟨25, 140, 160, 340, 5, 6, 7⟩ (25 : ℚ)) =
          poseOf ⟨5, 100, 200, 300, 1, 2, 3⟩) :=
  interpolation_boundary_exactness ⟨5, 100, 200, 300, 1, 2, 3⟩
    ⟨25, 140, 160, 340, 5, 6, 7⟩ (by norm_num)

/-- C5 (amended): with equal marker and image counts, constructing a
`Synchronizer` fails with `EventMarkerSlip` carrying the first adjacent pair
with `before.datetime > after.datetime`, and succeeds exactly when every
adjacent pair satisfies `before.datetime ≤ after.datetime` (equal timestamps
are accepted); a count mismatch takes precedence and is reported as
`CountMismatch` instead. -/
theorem synchronizer_slip_spec (event_markers : List EventMarker)
    (images : List String) (hlen : event_markers.length = images.length) :
    ((∃ s, Synchronizer.new event_markers images = .ok s) ↔
      List.Chain' (fun b a => b.datetime ≤ a.datetime) event_markers) ∧
    (∀ i (hi : i + 1 < event_markers.length),
      (event_markers.get ⟨i, by omega⟩).datetime >
        (event_markers.get ⟨i + 1, hi⟩).datetime →
      (∀ k (hk : k < i),
        (event_markers.get ⟨k, by omega⟩).datetime ≤
          (event_markers.get ⟨k + 1, by omega⟩).datetime) →
      Synchronizer.new event_markers images =
        .error (.EventMarkerSlip (event_markers.get ⟨i, by omega⟩)
          (event_markers.get ⟨i + 1, hi⟩))) := by
  constructor
  · constructor
    · intro hok
      obtain ⟨s, hs⟩ := hok
      unfold Synchronizer.new at hs
      rw [if_neg (by simp [hlen])] at hs
      match hfs : firstSlip
          (fun b a => decide (b.datetime > a.datetime)) event_markers with
      | some (b, a) => rw [hfs] at hs; cases hs
      | none =>
        rw [firstSlip_eq_none_iff] at hfs
        exact hfs.imp fun a b hab => by
          simpa [not_lt] using of_decide_eq_false hab
    · intro hc
      rw [synchronizer_new_ok event_markers images hlen hc]
      exact ⟨_, rfl⟩
  · intro i hi hbad hmin
    unfold Synchronizer.new
    rw [if_neg (by simp [hlen])]
    rw [firstSlip_eq_some_first _ event_markers i hi
      (decide_eq_true hbad)
      (fun k hk => decide_eq_false (not_lt.2 (hmin k hk)))]

/-- C5 counterexample: an event-marker list whose only adjacent pair is out
of order, paired with an image list of different length, fails with
`CountMismatch` — not with `EventMarkerSlip` naming that pair — so the claim
as stated (quantified over all inputs) is false. -/
theorem synchronizer_slip_countertest :
    (⟨20, 1⟩ : EventMarker).datetime > (⟨10, 2⟩ : EventMarker).datetime ∧
    Synchronizer.new [⟨20, 1⟩, ⟨10, 2⟩] ["a.jpg"] =
      .error (.CountMismatch [⟨20, 1⟩, ⟨10, 2⟩] ["a.jpg"]) ∧
    Synchronizer.new [⟨20, 1⟩, ⟨10, 2⟩] ["a.jpg"] ≠
      .error (.EventMarkerSlip ⟨20, 1⟩ ⟨10, 2⟩) := by
  refine ⟨by norm_num, by decide, by decide⟩

theorem synchronizer_slip_spec_witness :
    ((∃ s, Synchronizer.new [⟨20, 1⟩, ⟨10, 2⟩] ["a.jpg", "b.jpg"] = .ok s) ↔
      List.Chain' (fun b a => b.datetime ≤ a.datetime)
        [(⟨20, 1⟩ : EventMarker), ⟨10, 2⟩]) ∧
    Synchronizer.new [⟨20, 1⟩, ⟨10, 2⟩] ["a.jpg", "b.jpg"] =
      .error (.EventMarkerSlip
        (([(⟨20, 1⟩ : EventMarker), ⟨10, 2⟩]).get ⟨0, by norm_num⟩)
        (([(⟨20, 1⟩ : EventMarker), ⟨10, 2⟩]).get ⟨1, by norm_num⟩)) :=
  ⟨(synchronizer_slip_spec [⟨20, 1⟩, ⟨10, 2⟩] ["a.jpg", "b.jpg"] rfl).1,
   (synchronizer_slip_spec [⟨20, 1⟩, ⟨10, 2⟩] ["a.jpg", "b.jpg"] rfl).2 0
     (by norm_num) (by decide) (fun k hk => absurd hk (Nat.not_lt_zero k))⟩

/-- C6: constructing a `Trajectory` fails with `GpsWeekTimeSlip` carrying the
first adjacent pair of positions with `before.time > after.time`, and
succeeds exactly when every adjacent pair satisfies
`before.time ≤ after.time`. -/
theorem trajectory_slip_spec (positions : List Position) :
    ((∃ t, Trajectory.new positions = .ok t) ↔
      List.Chain' (fun b a => b.time ≤ a.time) positions) ∧
    (∀ i (hi : i + 1 < positions.length),
      (positions.get ⟨i, by omega⟩).time >
        (positions.get ⟨i + 1, hi⟩).time →
      (∀ k (hk : k < i),
        (positions.get ⟨k, by omega⟩).time ≤
          (positions.get ⟨k + 1, by omega⟩).time) →
      Trajectory.new positions =
        .error (.GpsWeekTimeSlip (positions.get ⟨i, by omega⟩)
          (positions.get ⟨i + 1, hi⟩))) := by
  constructor
  · constructor
    · intro hok
      obtain ⟨t, ht⟩ := hok
      unfold Trajectory.new at ht
      match hfs : firstSlip
          (fun b a => decide (b.time > a.time)) positions with
      | some (b, a) => rw [hfs] at ht; cases ht
      | none =>
        rw [firstSlip_eq_none_iff] at hfs
        exact hfs.imp fun a b hab => by
          simpa [not_lt] using of_decide_eq_false hab
    · intro hc
      rw [trajectory_new_ok positions hc]
      exact ⟨_, rfl⟩
  · intro i hi hbad hmin
    unfold Trajectory.new
    rw [firstSlip_eq_some_first _ positions i hi
      (decide_eq_true hbad)
      (fun k hk => decide_eq_false (not_lt.2 (hmin k hk)))]

theorem trajectory_slip_spec_witness :
    ((∃ t, Trajectory.new [⟨20, 0, 0, 0, 0, 0, 0⟩, ⟨10, 0, 0, 0, 0, 0, 0⟩] =
        .ok t) ↔
      List.Chain' (fun b a => b.time ≤ a.time)
        [(⟨20, 0, 0, 0, 0, 0, 0⟩ : Position), ⟨10, 0, 0, 0, 0, 0, 0⟩]) ∧
    Trajectory.new [⟨20, 0, 0, 0, 0, 0, 0⟩, ⟨10, 0, 0, 0, 0, 0, 0⟩] =
      .error (.GpsWeekTimeSlip
        (([(⟨20, 0, 0, 0, 0, 0, 0⟩ : Position),
          ⟨10, 0, 0, 0, 0, 0, 0⟩]).get ⟨0, by norm_num⟩)
        (([(⟨20, 0, 0, 0, 0, 0, 0⟩ : Position),
          ⟨10, 0, 0, 0, 0, 0, 0⟩]).get ⟨1, by norm_num⟩)) :=
  ⟨(trajectory_slip_spec [⟨20, 0, 0, 0, 0, 0, 0⟩, ⟨10, 0, 0, 0, 0, 0, 0⟩]).1,
   (trajectory_slip_spec [⟨20, 0, 0, 0, 0, 0, 0⟩,
      ⟨10, 0, 0, 0, 0, 0, 0⟩]).2 0
     (by norm_num) (by decide) (fun k hk => absurd hk (Nat.not_lt_zero k))⟩

/-- C7: `Synchronizer` construction fails with `CountMismatch` carrying both
input lists whenever the marker count and the image count differ, and the
count check passes (no `CountMismatch` is possible) whenever they are
equal. -/
theorem synchronizer_count_mismatch_spec (event_markers : List EventMarker)
    (images : List String) :
    (event_markers.length ≠ images.length →
      Synchronizer.new event_markers images =
        .error (.CountMismatch event_markers images)) ∧
    (event_markers.length = images.length →
      ∀ a b, Synchronizer.new event_markers images ≠
        .error (.CountMismatch a b)) := by
  constructor
  · intro hne
    unfold Synchronizer.new
    rw [if_pos hne]
  · intro hlen a b
    unfold Synchronizer.new
    rw [if_neg (by simp [hlen])]
    match hfs : firstSlip
        (fun b a => decide (b.datetime > a.datetime)) event_markers with
    | some (x, y) => rw [hfs]; simp
    | none => rw [hfs]; simp

theorem synchronizer_count_mismatch_spec_witness :
    Synchronizer.new [⟨10, 1⟩, ⟨20, 2⟩] ["a.jpg"] =
      .error (.CountMismatch [⟨10, 1⟩, ⟨20, 2⟩] ["a.jpg"]) ∧
    Synchronizer.new [⟨10, 1⟩, ⟨20, 2⟩] ["a.jpg", "b.jpg"] ≠
      .error (.CountMismatch [⟨10, 1⟩, ⟨20, 2⟩] ["a.jpg", "b.jpg"]) :=
  ⟨(synchronizer_count_mismatch_spec [⟨10, 1⟩, ⟨20, 2⟩] ["a.jpg"]).1
      (by decide),
   (synchronizer_count_mismatch_spec [⟨10, 1⟩, ⟨20, 2⟩]
      ["a.jpg", "b.jpg"]).2 rfl [⟨10, 1⟩, ⟨20, 2⟩] ["a.jpg", "b.jpg"]⟩

theorem mainRun_ok_and_count (offset : ℚ) (event_markers : List EventMarker)
    (images : List String) (positions : List Position)
    (hne : event_markers ≠ [])
    (hlen : event_markers.length = images.length)
    (hmono : List.Chain' (fun b a => b.datetime ≤ a.datetime) event_markers)
    (hp2 : 2 ≤ positions.length)
    (hpmono : List.Chain' (fun b a => b.time ≤ a.time) positions) :
    mainRun offset event_markers images positions =
      .ok (sweep offset (event_markers.zip images)
        (positions.zip (positions.drop 1))) ∧
    (sweep offset (event_markers.zip images)
        (positions.zip (positions.drop 1))).1.length =
      (event_markers.zip images).countP
        (fun p => decide (covered offset positions p.1.datetime)) := by
  refine ⟨mainRun_eq_sweep offset event_markers images positions
    hne hlen hmono hp2 hpmono, ?_⟩
  have hzt := chain'_zip_left event_markers images hmono
  have hzb := chain'_zip_left positions (positions.drop 1) hpmono
  have hts := pairwise_of_chain'_trans
    (fun (p q : EventMarker × String) => p.1.datetime ≤ q.1.datetime)
    (fun a b c hab hbc => le_trans hab hbc) hzt
  have hbs := pairwise_of_chain'_trans
    (fun (x y : Position × Position) => x.1.time ≤ y.1.time)
    (fun a b c hab hbc => le_trans hab hbc) hzb
  rw [sweep_eq_filterMap offset _ _ _ le_rfl hts hbs]
  rw [length_filterMap_eq_countP]
  refine List.countP_congr fun p hp => ?_
  rw [Option.isSome_map']
  simp [decide_eq_true_eq, covered_iff_findBracket_isSome]

/-- C1: for every validated input (non-empty, time-ordered event markers; an
image list of equal length; a time-ordered trajectory of at least two
samples) the sweep succeeds, emits at most one record per event marker, and
emits exactly one record per event marker precisely when every trigger's
datetime falls within the closed interval of some adjacent trajectory-sample
pair. -/
theorem sweep_count_invariant (offset : ℚ) (event_markers : List EventMarker)
    (images : List String) (positions : List Position)
    (hne : event_markers ≠ [])
    (hlen : event_markers.length = images.length)
    (hmono : List.Chain' (fun b a => b.datetime ≤ a.datetime) event_markers)
    (hp2 : 2 ≤ positions.length)
    (hpmono : List.Chain' (fun b a => b.time ≤ a.time) positions) :
    ∃ result, mainRun offset event_markers images positions = .ok result ∧
      result.1.length ≤ event_markers.length ∧
      (result.1.length = event_markers.length ↔
        ∀ em ∈ event_markers, covered offset positions em.datetime) := by
  obtain ⟨hrun, hcount⟩ := mainRun_ok_and_count offset event_markers images
    positions hne hlen hmono hp2 hpmono
  have hzlen : (event_markers.zip images).length = event_markers.length := by
    rw [List.length_zip, hlen, min_self]
  refine ⟨_, hrun, ?_, ?_⟩
  · rw [hcount]
    exact le_trans (List.countP_le_length _) (le_of_eq hzlen)
  · rw [hcount, ← hzlen, List.countP_eq_length]
    constructor
    · intro hall em hem
      obtain ⟨fn, hfn⟩ := mem_zip_left hlen hem
      simpa using hall (em, fn) hfn
    · intro hall p hp
      obtain ⟨em, fn⟩ := p
      simpa using hall em (List.of_mem_zip hp).1

theorem sweep_count_invariant_witness :
    ∃ result,
      mainRun 0 [⟨10, 1⟩, ⟨20, 2⟩] ["a.jpg", "b.jpg"]
        [⟨5, 0, 0, 0, 0, 0, 0⟩, ⟨25, 0, 0, 0, 0, 0, 0⟩] = .ok result ∧
      result.1.length ≤ ([(⟨10, 1⟩ : EventMarker), ⟨20, 2⟩]).length ∧
      (result.1.length = ([(⟨10, 1⟩ : EventMarker), ⟨20, 2⟩]).length ↔
        ∀ em ∈ [(⟨10, 1⟩ : EventMarker), ⟨20, 2⟩],
          covered 0 [⟨5, 0, 0, 0, 0, 0, 0⟩, ⟨25, 0, 0, 0, 0, 0, 0⟩]
            em.datetime) :=
  sweep_count_invariant 0 [⟨10, 1⟩, ⟨20, 2⟩] ["a.jpg", "b.jpg"]
    [⟨5, 0, 0, 0, 0, 0, 0⟩, ⟨25, 0, 0, 0, 0, 0, 0⟩]
    (by simp) rfl (by norm_num [List.chain'_pair]) (le_refl 2)
    (by norm_num [List.chain'_pair])

/-- C2: on validated inputs the sweep always completes successfully (it
returns records, never an error or warning); its record count is exactly the
number of triggers covered by some adjacent trajectory bracket — so a
trigger outside trajectory coverage contributes no record — and if no
trigger is covered (for instance a trailing trigger past the end of the
trajectory) the output is empty rather than a failure. -/
theorem sweep_drops_uncovered_triggers (offset : ℚ)
    (event_markers : List EventMarker) (images : List String)
    (positions : List Position)
    (hne : event_markers ≠ [])
    (hlen : event_markers.length = images.length)
    (hmono : List.Chain' (fun b a => b.datetime ≤ a.datetime) event_markers)
    (hp2 : 2 ≤ positions.length)
    (hpmono : List.Chain' (fun b a => b.time ≤ a.time) positions) :
    ∃ result, mainRun offset event_markers images positions = .ok result ∧
      result.1.length = (event_markers.zip images).countP
        (fun p => decide (covered offset positions p.1.datetime)) ∧
      ((∀ em ∈ event_markers, ¬ covered offset positions em.datetime) →
        result.1 = []) := by
  obtain ⟨hrun, hcount⟩ := mainRun_ok_and_count offset event_markers images
    positions hne hlen hmono hp2 hpmono
  refine ⟨_, hrun, hcount, ?_⟩
  intro hall
  rw [← List.length_eq_zero, hcount, List.countP_eq_zero]
  intro p hp
  obtain ⟨em, fn⟩ := p
  simpa using hall em (List.of_mem_zip hp).1

theorem sweep_drops_uncovered_triggers_witness :
    ∃ result,
      mainRun 0 [⟨30, 1⟩] ["a.jpg"]
        [⟨20, 0, 0, 0, 0, 0, 0⟩, ⟨25, 0, 0, 0, 0, 0, 0⟩] = .ok result ∧
      result.1.length =
        ([(⟨30, 1⟩ : EventMarker)].zip ["a.jpg"]).countP
          (fun p => decide (covered 0
            [⟨20, 0, 0, 0, 0, 0, 0⟩, ⟨25, 0, 0, 0, 0, 0, 0⟩]
            p.1.datetime)) ∧
      ((∀ em ∈ [(⟨30, 1⟩ : EventMarker)],
          ¬ covered 0 [⟨20, 0, 0, 0, 0, 0, 0⟩, ⟨25, 0, 0, 0, 0, 0, 0⟩]
            em.datetime) →
        result.1 = []) :=
  sweep_drops_uncovered_triggers 0 [⟨30, 1⟩] ["a.jpg"]
    [⟨20, 0, 0, 0, 0, 0, 0⟩, ⟨25, 0, 0, 0, 0, 0, 0⟩]
    (by simp) rfl (List.chain'_singleton _) (le_refl 2)
    (by norm_num [List.chain'_pair])

/-- C8: when the other inputs pass their earlier validations, a trajectory
with fewer than two position samples makes the run fail with
`EmptyTrajectory` at setup time — the result is an error carrying no
records, so no `SynchronizedRecord` is ever produced and the sweep loop is
never entered. -/
theorem empty_trajectory_check (offset : ℚ)
    (event_markers : List EventMarker) (images : List String)
    (positions : List Position)
    (hne : event_markers ≠ [])
    (hlen : event_markers.length = images.length)
    (hmono : List.Chain' (fun b a => b.datetime ≤ a.datetime) event_markers)
    (hps : positions.length < 2) :
    mainRun offset event_markers images positions =
      .error .EmptyTrajectory := by
  match event_markers, images with
  | [], _ => exact absurd rfl hne
  | e :: es, [] => simp at hlen
  | e :: es, i :: is =>
    unfold mainRun
    rw [synchronizer_new_ok (e :: es) (i :: is) hlen hmono]
    match positions, hps with
    | [], _ =>
      rw [trajectory_new_ok [] (by simp)]
      rfl
    | [p], _ =>
      rw [trajectory_new_ok [p] (by simp)]
      rfl

theorem empty_trajectory_check_witness :
    mainRun 0 [⟨0, 1⟩] ["a.jpg"] [⟨0, 0, 0, 0, 0, 0, 0⟩] =
      .error .EmptyTrajectory :=
  empty_trajectory_check 0 [⟨0, 1⟩] ["a.jpg"] [⟨0, 0, 0, 0, 0, 0, 0⟩]
    (by simp) rfl (List.chain'_singleton _) (by norm_num)

/-- C9: the sweep never enters the final `else` branch (the `unreachable!()`
assertion) on any input, and for every bracket with
`before.time ≤ after.time` exactly one of the three comparison cases of the
loop holds for any trigger. -/
theorem sweep_cases_exhaustive (offset : ℚ)
    (triggers : List (EventMarker × String))
    (brackets : List (Position × Position)) :
    (sweep offset triggers brackets).2 = false ∧
    (∀ (before after : Position) (event_marker : EventMarker),
      before.time ≤ after.time →
      ((before.datetime offset ≤ event_marker.datetime ∧
          after.datetime offset ≥ event_marker.datetime) ∧
        ¬(before.datetime offset > event_marker.datetime) ∧
        ¬(after.datetime offset < event_marker.datetime)) ∨
      (¬(before.datetime offset ≤ event_marker.datetime ∧
          after.datetime offset ≥ event_marker.datetime) ∧
        (before.datetime offset > event_marker.datetime) ∧
        ¬(after.datetime offset < event_marker.datetime)) ∨
      (¬(before.datetime offset ≤ event_marker.datetime ∧
          after.datetime offset ≥ event_marker.datetime) ∧
        ¬(before.datetime offset > event_marker.datetime) ∧
        (after.datetime offset < event_marker.datetime))) := by
  constructor
  · exact sweep_snd_false offset (triggers.length + brackets.length)
      triggers brackets le_rfl
  · intro b a em hba
    unfold Position.datetime
    rcases le_or_lt (b.time + offset) em.datetime with hb | hb
    · rcases le_or_lt em.datetime (a.time + offset) with ha | ha
      · exact Or.inl ⟨⟨hb, ha⟩, not_lt.2 hb, not_lt.2 ha⟩
      · refine Or.inr (Or.inr ⟨?_, not_lt.2 hb, ha⟩)
        intro hc
        exact absurd hc.2 (not_le.2 ha)
    · refine Or.inr (Or.inl ⟨?_, hb, ?_⟩)
      · intro hc
        exact absurd hc.1 (not_le.2 hb)
      · have hlt : em.datetime < a.time + offset :=
          lt_of_lt_of_le hb (by linarith)
        exact not_lt.2 (le_of_lt hlt)

theorem sweep_cases_exhaustive_witness :
    (sweep 0 [(⟨10, 1⟩, "a.jpg")] [(⟨5, 0, 0, 0, 0, 0, 0⟩,
      ⟨25, 0, 0, 0, 0, 0, 0⟩)]).2 = false ∧
    ((((⟨5, 0, 0, 0, 0, 0, 0⟩ : Position).datetime 0 ≤
        (⟨10, 1⟩ : EventMarker).datetime ∧
      (⟨25, 0, 0, 0, 0, 0, 0⟩ : Position).datetime 0 ≥
        (⟨10, 1⟩ : EventMarker).datetime) ∧
      ¬((⟨5, 0, 0, 0, 0, 0, 0⟩ : Position).datetime 0 >
        (⟨10, 1⟩ : EventMarker).datetime) ∧
      ¬((⟨25, 0, 0, 0, 0, 0, 0⟩ : Position).datetime 0 <
        (⟨10, 1⟩ : EventMarker).datetime)) ∨
    (¬((⟨5, 0, 0, 0, 0, 0, 0⟩ : Position).datetime 0 ≤
        (⟨10, 1⟩ : EventMarker).datetime ∧
      (⟨25, 0, 0, 0, 0, 0, 0⟩ : Position).datetime 0 ≥
        (⟨10, 1⟩ : EventMarker).datetime) ∧
      ((⟨5, 0, 0, 0, 0, 0, 0⟩ : Position).datetime 0 >
        (⟨10, 1⟩ : EventMarker).datetime) ∧
      ¬((⟨25, 0, 0, 0, 0, 0, 0⟩ : Position).datetime 0 <
        (⟨10, 1⟩ : EventMarker).datetime)) ∨
    (¬((⟨5, 0, 0, 0, 0, 0, 0⟩ : Position).datetime 0 ≤
        (⟨10, 1⟩ : EventMarker).datetime ∧
      (⟨25, 0, 0, 0, 0, 0, 0⟩ : Position).datetime 0 ≥
        (⟨10, 1⟩ : EventMarker).datetime) ∧
      ¬((⟨5, 0, 0, 0, 0, 0, 0⟩ : Position).datetime 0 >
        (⟨10, 1⟩ : EventMarker).datetime) ∧
      ((⟨25, 0, 0, 0, 0, 0, 0⟩ : Position).datetime 0 <
        (⟨10, 1⟩ : EventMarker).datetime))) :=
  ⟨(sweep_cases_exhaustive 0 [(⟨10, 1⟩, "a.jpg")]
      [(⟨5, 0, 0, 0, 0, 0, 0⟩, ⟨25, 0, 0, 0, 0, 0, 0⟩)]).1,
   (sweep_cases_exhaustive 0 [(⟨10, 1⟩, "a.jpg")]
      [(⟨5, 0, 0, 0, 0, 0, 0⟩, ⟨25, 0, 0, 0, 0, 0, 0⟩)]).2
     ⟨5, 0, 0, 0, 0, 0, 0⟩ ⟨25, 0, 0, 0, 0, 0, 0⟩ ⟨10, 1⟩ (by norm_num)⟩

/-- C4 (amended): a line that does not match the event-marker regex fails
with the executable's `InvalidEventMarker` kind carrying the raw line; a
line that matches the textual shape either parses into an `EventMarker` or
fails with the propagated underlying error — a `chrono` date/time parse
error or an integer parse error — not with `InvalidEventMarker`. -/
theorem event_marker_parse_trichotomy (s : String) :
    (matchLine s = none →
      EventMarker.from_str s = .error (.app (.InvalidEventMarker s))) ∧
    ((matchLine s).isSome →
      (∃ em, EventMarker.from_str s = .ok em) ∨
      EventMarker.from_str s = .error .chronoParse ∨
      EventMarker.from_str s = .error .parseInt) := by
  constructor
  · intro h
    unfold EventMarker.from_str
    rw [h]
  · intro hsome
    match hm : matchLine s with
    | none => rw [hm] at hsome; simp at hsome
    | some (d, t, n) =>
      match hd : parse_date d with
      | none =>
        refine Or.inr (Or.inl ?_)
        simp only [EventMarker.from_str, hm, hd]
      | some days =>
        match ht : parse_time t with
        | none =>
          refine Or.inr (Or.inl ?_)
          simp only [EventMarker.from_str, hm, hd, ht]
        | some secs =>
          match hn : parse_i32 n with
          | none =>
            refine Or.inr (Or.inr ?_)
            simp only [EventMarker.from_str, hm, hd, ht, hn]
          | some num =>
            refine Or.inl ⟨⟨(days : ℚ) * 86400 + secs, num⟩, ?_⟩
            simp only [EventMarker.from_str, hm, hd, ht, hn]

/-- C4 counterexample: the line `2021/13/01 12:00:00.0000 5` matches the
textual shape `<date> <time> <integer>` but its date has month 13, so
`chrono` rejects it and the propagated error is the `chrono` parse error —
not the `InvalidEventMarker` kind the claim requires. -/
theorem event_marker_parse_countertest :
    (matchLine "2021/13/01 12:00:00.0000 5").isSome = true ∧
    EventMarker.from_str "2021/13/01 12:00:00.0000 5" =
      .error .chronoParse ∧
    EventMarker.from_str "2021/13/01 12:00:00.0000 5" ≠
      .error (.app (.InvalidEventMarker "2021/13/01 12:00:00.0000 5")) := by
  refine ⟨rfl, rfl, by decide⟩

theorem event_marker_parse_trichotomy_witness :
    EventMarker.from_str "not a marker" =
      .error (.app (.InvalidEventMarker "not a marker")) ∧
    ((∃ em, EventMarker.from_str "2021/12/01 12:00:00.0000 5" = .ok em) ∨
      EventMarker.from_str "2021/12/01 12:00:00.0000 5" =
        .error .chronoParse ∨
      EventMarker.from_str "2021/12/01 12:00:00.0000 5" =
        .error .parseInt) :=
  ⟨(event_marker_parse_trichotomy "not a marker").1 rfl,
   (event_marker_parse_trichotomy "2021/12/01 12:00:00.0000 5").2 rfl⟩

/-- C10: reading the image-name file keeps every line — including a blank
line, which therefore counts toward the image count used by the
`CountMismatch` check — while reading the synchro file skips empty lines and
lines starting with `#`, so such a line contributes nothing to the parsed
event markers. -/
theorem read_lines_policy (lines : List String) (l : String)
    (hl : (l.isEmpty || l.startsWith "#") = true) :
    read_image_names (l :: lines) = l :: lines ∧
    (read_image_names (l :: lines)).length = lines.length + 1 ∧
    read_synchro (l :: lines) = read_synchro lines := by
  refine ⟨rfl, by simp [read_image_names], ?_⟩
  unfold read_synchro
  rw [List.filter_cons, if_neg (by simp [hl])]

theorem read_lines_policy_witness :
    read_image_names ("" :: ["a.jpg"]) = "" :: ["a.jpg"] ∧
    (read_image_names ("" :: ["a.jpg"])).length = ["a.jpg"].length + 1 ∧
    read_synchro ("" :: ["a.jpg"]) = read_synchro ["a.jpg"] :=
  read_lines_policy ["a.jpg"] "" rfl
